import Mathlib

/-!
Verification of the smart_alarm application core (src/main.py, src/alarm_sounds.py)
against its natural-language specification.

The embedding is shallow: Python datetimes become an explicit record of
calendar fields with Python's validation and lexicographic comparison,
`datetime.replace` becomes an `Option`-valued function (`none` models the
`ValueError` that `replace` raises on an invalid date), and the mutable
application object becomes explicit state passing.  Background threads are
modelled as an explicit event run: the alarm-monitor loop's iterations and
externally arriving stop requests are interleaved as events, with the loop's
own `time.sleep` calls determining the sampling instants, and stop requests
serialized at loop boundaries.
-/

/-! ## Calendar model (Python `datetime`)

Mirrors the subset of `datetime.datetime` used by `main.py`: field records,
lexicographic comparison, `replace` with validity checking (raising, i.e.
returning `none`, on an out-of-range day such as January 32), and
`strftime("%H:%M")` / `split(":")` + `int` formatting and parsing. -/

structure PyDateTime where
  year : Nat
  month : Nat
  day : Nat
  hour : Nat
  minute : Nat
  second : Nat
deriving DecidableEq, Repr

def isLeap (y : Nat) : Bool :=
  (y % 4 == 0 && y % 100 != 0) || (y % 400 == 0)

def daysInMonth (y m : Nat) : Nat :=
  if m = 2 then (if isLeap y then 29 else 28)
  else if m = 4 || m = 6 || m = 9 || m = 11 then 30
  else 31

def PyDateTime.valid (d : PyDateTime) : Bool :=
  decide (1 ≤ d.year) && decide (1 ≤ d.month) && decide (d.month ≤ 12) &&
  decide (1 ≤ d.day) && decide (d.day ≤ daysInMonth d.year d.month) &&
  decide (d.hour ≤ 23) && decide (d.minute ≤ 59) && decide (d.second ≤ 59)

/-- Python datetime comparison: lexicographic on
(year, month, day, hour, minute, second). -/
def pyLt (a b : PyDateTime) : Bool :=
  if a.year ≠ b.year then decide (a.year < b.year)
  else if a.month ≠ b.month then decide (a.month < b.month)
  else if a.day ≠ b.day then decide (a.day < b.day)
  else if a.hour ≠ b.hour then decide (a.hour < b.hour)
  else if a.minute ≠ b.minute then decide (a.minute < b.minute)
  else decide (a.second < b.second)

/-- `dt.replace(day=d)`: returns `none` when the resulting date is invalid,
modelling the `ValueError` Python raises (e.g. day 32 in January). -/
def replaceDay (dt : PyDateTime) (d : Nat) : Option PyDateTime :=
  let r := { dt with day := d }
  if r.valid then some r else none

/-- `now.replace(hour=h, minute=m, second=0, microsecond=0)`: validates the
new fields, raising (`none`) on e.g. an hour of 99. -/
def replaceHM (dt : PyDateTime) (h m : Nat) : Option PyDateTime :=
  let r := { dt with hour := h, minute := m, second := 0 }
  if r.valid then some r else none

/-! ### `strftime("%H:%M")` and `split(":")` / `int` -/

def digitChar (d : Nat) : Char := Char.ofNat (48 + d)

/-- Two zero-padded decimal digits, as `%H` / `%M` print an hour or minute
(both are below 100 in every valid datetime). -/
def twoDigits (n : Nat) : List Char := [digitChar (n / 10), digitChar (n % 10)]

/-- `alarm["time"].strftime("%H:%M")`. -/
def formatHM (h m : Nat) : String := String.mk (twoDigits h ++ ':' :: twoDigits m)

/-- `str.split(":")` on the underlying characters. -/
def splitColon : List Char → List (List Char)
  | [] => [[]]
  | c :: cs =>
    if c = ':' then [] :: splitColon cs
    else
      match splitColon cs with
      | g :: gs => (c :: g) :: gs
      | [] => [[c]]

def digitVal? (c : Char) : Option Nat :=
  if 48 ≤ c.toNat ∧ c.toNat ≤ 57 then some (c.toNat - 48) else none

def digitsToNatAux : Nat → List Char → Option Nat
  | acc, [] => some acc
  | acc, c :: cs =>
    match digitVal? c with
    | some d => digitsToNatAux (acc * 10 + d) cs
    | none => none

/-- `int(s)` on a digit string: `none` (an exception) when `s` is empty or
holds a non-digit. -/
def digitsToNat? : List Char → Option Nat
  | [] => none
  | c :: cs => digitsToNatAux 0 (c :: cs)

/-- `h, m = map(int, time_str.split(":"))`: `none` models the unpack or
`int()` exception when the string is not two colon-separated numbers. -/
def parseTimeStr (s : String) : Option (Nat × Nat) :=
  match splitColon s.data with
  | [hs, ms] =>
    match digitsToNat? hs, digitsToNat? ms with
    | some h, some m => some (h, m)
    | _, _ => none
  | _ => none

/-! ## Alarm store (calendar view): add / delete / toggle / save / load

These embed `SmartAlarmApp.load_alarms`, `save_alarms`, `add_new_alarm`,
`delete_alarm` and `toggle_alarm_active` from `src/main.py`. -/

/-- An in-memory alarm: `{"id": ..., "time": datetime, "active": ...}`. -/
structure CalAlarm where
  id : String
  time : PyDateTime
  active : Bool
deriving DecidableEq, Repr

/-- One entry of `alarms.json`: `{"id", "time_str", "active"}`. -/
structure PersistedAlarm where
  id : String
  time_str : String
  active : Bool
deriving DecidableEq, Repr

/-- `save_alarms` (src/main.py lines 96-108): the list written to
`alarms.json`. -/
def save_alarms (alarms : List CalAlarm) : List PersistedAlarm :=
  alarms.map fun a => ⟨a.id, formatHM a.time.hour a.time.minute, a.active⟩

/-- One iteration of the `for item in data` loop of `load_alarms`:
parse `time_str`, attach today's date, roll past times to `now.day + 1`.
`none` models any exception raised in the iteration. -/
def load_item (now : PyDateTime) (item : PersistedAlarm) : Option CalAlarm := do
  let (h, m) ← parseTimeStr item.time_str
  let dt ← replaceHM now h m
  let dt ← if pyLt dt now then replaceDay dt (now.day + 1) else some dt
  pure ⟨item.id, dt, item.active⟩

/-- `load_alarms` (src/main.py lines 74-94): on any exception the
`except` clause leaves `self.alarms = []`. -/
def load_alarms (now : PyDateTime) (data : List PersistedAlarm) : List CalAlarm :=
  match data.mapM (load_item now) with
  | some l => l
  | none => []

/-- Result of a UI-level store operation: the new list, the snackbar message
shown (if any), and whether an exception escaped the handler. -/
structure AddResult where
  alarms : List CalAlarm
  snackbar : Option String
  raised : Bool
deriving DecidableEq, Repr

/-- `add_new_alarm` (src/main.py lines 275-294).  The guard is
`if self.time_picker.value and len(self.alarms) < 3`; with three alarms the
body is skipped entirely: no append, no snackbar, no error of any kind. -/
def add_new_alarm (alarms : List CalAlarm) (picker : Option (Nat × Nat))
    (now : PyDateTime) (newId : String) : AddResult :=
  match picker with
  | none => ⟨alarms, none, false⟩
  | some (h, m) =>
    if alarms.length < 3 then
      match replaceHM now h m with
      | none => ⟨alarms, none, true⟩
      | some t =>
        match (if pyLt t now then replaceDay t (now.day + 1) else some t) with
        | none => ⟨alarms, none, true⟩
        | some t2 =>
          ⟨alarms ++ [⟨newId, t2, true⟩],
           some ("Alarm set for " ++ formatHM t2.hour t2.minute), false⟩
    else ⟨alarms, none, false⟩

/-- Result of `toggle_alarm_active` on one alarm: the (possibly partially)
mutated alarm and whether a `ValueError` escaped.  The source mutates
`alarm["active"]` before the roll-forward, so on the error path the flag
has already changed while the time has not. -/
structure ToggleResult where
  alarm : CalAlarm
  raised : Bool
deriving DecidableEq, Repr

/-- `toggle_alarm_active` (src/main.py lines 301-309):
sets `active`; when activating an alarm whose instant has passed, executes
`alarm["time"].replace(day=now.day + 1)`. -/
def toggle_alarm_active (alarm : CalAlarm) (active : Bool) (now : PyDateTime) :
    ToggleResult :=
  let alarm2 := { alarm with active := active }
  if active && pyLt alarm2.time now then
    match replaceDay alarm2.time (now.day + 1) with
    | some t => ⟨{ alarm2 with time := t }, false⟩
    | none => ⟨alarm2, true⟩
  else ⟨alarm2, false⟩

/-- A user-level alarm-store operation (add / delete / toggle), as driven
from the UI callbacks in `src/main.py`. -/
inductive StoreOp where
  | add : Option (Nat × Nat) → PyDateTime → String → StoreOp
  | delete : String → StoreOp
  | toggle : String → Bool → PyDateTime → StoreOp
deriving DecidableEq, Repr

/-- Effect of one store operation on the alarm list.  `delete_alarm` removes
the given element (`list.remove`); `toggle_alarm_active` mutates the matched
alarm in place. -/
def applyStoreOp (alarms : List CalAlarm) : StoreOp → List CalAlarm
  | .add picker now newId => (add_new_alarm alarms picker now newId).alarms
  | .delete i => alarms.eraseP (fun a => a.id == i)
  | .toggle i b now =>
    alarms.map fun a => if a.id == i then (toggle_alarm_active a b now).alarm else a

def applyStoreOps (alarms : List CalAlarm) (ops : List StoreOp) : List CalAlarm :=
  ops.foldl applyStoreOp alarms

/-! ### Store lemmas -/

theorem applyStoreOp_length_le (alarms : List CalAlarm) (op : StoreOp)
    (h : alarms.length ≤ 3) : (applyStoreOp alarms op).length ≤ 3 := by
  cases op with
  | add picker now newId =>
    cases picker with
    | none => simpa [applyStoreOp, add_new_alarm]
    | some hm =>
      obtain ⟨ph, pm⟩ := hm
      simp only [applyStoreOp, add_new_alarm]
      by_cases hlen : alarms.length < 3
      · simp only [if_pos hlen]
        cases replaceHM now ph pm with
        | none => simpa
        | some t =>
          cases hroll : (if pyLt t now then replaceDay t (now.day + 1) else some t) with
          | none => simpa [hroll]
          | some t2 => simp [hroll, List.length_append]; omega
      · simpa [if_neg hlen]
  | delete i =>
    calc (alarms.eraseP (fun a => a.id == i)).length ≤ alarms.length :=
          List.length_eraseP_le _
      _ ≤ 3 := h
  | toggle i b now => simpa [applyStoreOp] using h

/-! ### Claim C6: alarm-store capacity -/

/-- Claim C6, counterexample: with 3 alarms stored, an attempted add does not
fail with a `CapacityExceeded` error as claimed: `add_new_alarm` skips its
body, returning with the store unchanged, no snackbar message and no
exception — there is no failure signal of any kind. -/
theorem add_at_capacity_silent :
    add_new_alarm
      [⟨"a", ⟨2026, 1, 15, 7, 0, 0⟩, true⟩, ⟨"b", ⟨2026, 1, 15, 8, 0, 0⟩, true⟩,
       ⟨"c", ⟨2026, 1, 15, 9, 0, 0⟩, true⟩] (some (9, 30)) ⟨2026, 1, 15, 6, 0, 0⟩ "d" =
    ⟨[⟨"a", ⟨2026, 1, 15, 7, 0, 0⟩, true⟩, ⟨"b", ⟨2026, 1, 15, 8, 0, 0⟩, true⟩,
      ⟨"c", ⟨2026, 1, 15, 9, 0, 0⟩, true⟩], none, false⟩ := by decide

/-- Claim C6 (amended): for every sequence of alarm-store operations from a
store of at most 3 alarms, the store never holds more than 3 alarms; an add
attempted when 3 alarms already exist is silently ignored — no alarm is added,
no message is shown and no error is signalled — and the existing alarms are
left unchanged. -/
theorem store_capacity_amended :
    (∀ (alarms : List CalAlarm) (ops : List StoreOp), alarms.length ≤ 3 →
      (applyStoreOps alarms ops).length ≤ 3) ∧
    (∀ (alarms : List CalAlarm) (picker : Option (Nat × Nat)) (now : PyDateTime)
      (newId : String), 3 ≤ alarms.length →
        add_new_alarm alarms picker now newId = ⟨alarms, none, false⟩) := by
  constructor
  · intro alarms ops
    induction ops generalizing alarms with
    | nil => intro h; simpa [applyStoreOps]
    | cons op rest ih =>
      intro h
      simpa [applyStoreOps] using ih _ (applyStoreOp_length_le alarms op h)
  · intro alarms picker now newId h
    cases picker with
    | none => simp [add_new_alarm]
    | some hm =>
      obtain ⟨ph, pm⟩ := hm
      simp [add_new_alarm, Nat.not_lt.mpr h]

/-- Claim C6, witness: the amended theorem at a concrete store of 3 alarms and
a concrete operation sequence. -/
theorem store_capacity_amended_witness :
    ([(⟨"a", ⟨2026, 1, 15, 7, 0, 0⟩, true⟩ : CalAlarm)].length ≤ 3 ∧
      (applyStoreOps [⟨"a", ⟨2026, 1, 15, 7, 0, 0⟩, true⟩]
        [.add (some (8, 0)) ⟨2026, 1, 15, 6, 0, 0⟩ "b",
         .toggle "a" false ⟨2026, 1, 15, 6, 0, 0⟩]).length ≤ 3) ∧
    (3 ≤ ([(⟨"a", ⟨2026, 1, 15, 7, 0, 0⟩, true⟩ : CalAlarm), ⟨"b", ⟨2026, 1, 15, 8, 0, 0⟩, true⟩,
        ⟨"c", ⟨2026, 1, 15, 9, 0, 0⟩, true⟩]).length ∧
      add_new_alarm
        [⟨"a", ⟨2026, 1, 15, 7, 0, 0⟩, true⟩, ⟨"b", ⟨2026, 1, 15, 8, 0, 0⟩, true⟩,
         ⟨"c", ⟨2026, 1, 15, 9, 0, 0⟩, true⟩] (some (10, 0)) ⟨2026, 1, 15, 6, 0, 0⟩ "d" =
      ⟨[⟨"a", ⟨2026, 1, 15, 7, 0, 0⟩, true⟩, ⟨"b", ⟨2026, 1, 15, 8, 0, 0⟩, true⟩,
        ⟨"c", ⟨2026, 1, 15, 9, 0, 0⟩, true⟩], none, false⟩) :=
  ⟨⟨by decide, store_capacity_amended.1 _ _ (by decide)⟩,
   ⟨by decide, store_capacity_amended.2 _ _ _ _ (by decide)⟩⟩

/-! ### Claim C7: toggle-to-active roll-forward -/

/-- Claim C7 (code bug): toggling to active an alarm whose stored instant
(2026-01-31 07:00) has passed, at now = 2026-01-31 08:00, does not roll the
alarm to the following day: `replace(day=32)` is an invalid January date, so
the source raises `ValueError` (`raised = true`); the `active` flag has
already been mutated, the instant is unchanged and still in the past. -/
theorem toggle_rollforward_monthEnd_bug :
    toggle_alarm_active ⟨"a", ⟨2026, 1, 31, 7, 0, 0⟩, false⟩ true ⟨2026, 1, 31, 8, 0, 0⟩ =
      ⟨⟨"a", ⟨2026, 1, 31, 7, 0, 0⟩, true⟩, true⟩ ∧
    pyLt (⟨2026, 1, 31, 7, 0, 0⟩ : PyDateTime) ⟨2026, 1, 31, 8, 0, 0⟩ = true := by decide

/-! ### Claim C9: persistence round trip -/

/-- Claim C9 (code bug): a saved alarm list, reloaded on 2026-01-31 at 23:00,
does not reproduce the persisted triples: the loader attaches the 07:00
time-of-day to the current day, finds it already past, and executes
`replace(day=32)` — an invalid January date — so the whole load raises and the
`except` clause leaves the alarm list empty. -/
theorem persist_roundtrip_monthEnd_bug :
    save_alarms [⟨"a", ⟨2026, 1, 15, 7, 0, 0⟩, true⟩] = [⟨"a", "07:00", true⟩] ∧
    load_alarms ⟨2026, 1, 31, 23, 0, 0⟩ [⟨"a", "07:00", true⟩] = [] := by decide

/-! ## Sound manager (src/alarm_sounds.py)

`AlarmSoundManager.__init__` fills `generated_files` with one entry per
generator id before any preference is loaded, so the dictionary always holds
exactly the six generated ids. -/

def soundIds : List String :=
  ["gentle", "urgent", "melodic", "beeping", "chirping", "digital"]

def soundPath (i : String) : String := "assets/sounds/" ++ i ++ ".wav"

/-- `self.generated_files` after `generate_sound_files`. -/
def generated_files : List (String × String) := soundIds.map fun i => (i, soundPath i)

def lookupGF (k : String) : Option String :=
  (generated_files.find? fun p => p.1 == k).map fun p => p.2

/-- The persisted content of `alarm_preferences.json`. -/
structure Prefs where
  current_sound : String
  volume : ℚ
deriving DecidableEq, Repr

/-- The mutable fields of `AlarmSoundManager` relevant to sound selection,
plus the last preferences written to disk. -/
structure SoundMgr where
  current_sound : String
  volume : ℚ
  savedPrefs : Option Prefs
deriving DecidableEq, Repr

/-- `save_preferences` (src/alarm_sounds.py lines 206-216). -/
def save_preferences (m : SoundMgr) : SoundMgr :=
  { m with savedPrefs := some ⟨m.current_sound, m.volume⟩ }

/-- `set_sound` (src/alarm_sounds.py lines 177-180): updates and persists only
when the id is a key of `generated_files`. -/
def set_sound (m : SoundMgr) (sound_type : String) : SoundMgr :=
  if (lookupGF sound_type).isSome then
    save_preferences { m with current_sound := sound_type }
  else m

/-- `get_current_sound_path` (src/alarm_sounds.py lines 182-183):
`generated_files.get(current_sound, generated_files["urgent"])`. -/
def get_current_sound_path (m : SoundMgr) : String :=
  match lookupGF m.current_sound with
  | some p => p
  | none => (lookupGF "urgent").getD ""

/-- `load_preferences` (src/alarm_sounds.py lines 218-226): adopts the stored
id without validating it against the generated sounds. -/
def load_preferences (m : SoundMgr) (file : Option Prefs) : SoundMgr :=
  match file with
  | some p => { m with current_sound := p.current_sound, volume := p.volume }
  | none => m

theorem lookupGF_eq_none_of_not_mem (s : String) (h : s ∉ soundIds) :
    lookupGF s = none := by
  have : generated_files.find? (fun p => p.1 == s) = none := by
    rw [List.find?_eq_none]
    intro p hp
    simp only [generated_files, List.mem_map] at hp
    obtain ⟨i, hi, rfl⟩ := hp
    intro hcontra
    exact h (eq_of_beq hcontra ▸ hi)
  simp [lookupGF, this]

theorem lookupGF_mem_paths (s p : String) (h : lookupGF s = some p) :
    p ∈ soundIds.map soundPath := by
  unfold lookupGF at h
  cases hf : generated_files.find? (fun q => q.1 == s) with
  | none => simp [hf] at h
  | some q =>
    have hq : q ∈ generated_files := List.mem_of_find?_eq_some hf
    simp only [hf, Option.map_some'] at h
    simp only [generated_files, List.mem_map] at hq
    obtain ⟨i, hi, rfl⟩ := hq
    simp only [Option.some_inj] at h
    exact h ▸ List.mem_map.mpr ⟨i, hi, rfl⟩

/-! ### Claim C10: sound lookup totality and unknown-id handling -/

/-- Claim C10: the current-sound-path lookup is total — for every value of
`current_sound` it returns the path of one of the generated sounds; when the
stored id is not a generated id (for example after `load_preferences` read an
unrecognized id from the preferences file) it returns the path of the
"urgent" sound; and `set_sound` with an unknown id leaves the manager —
current sound and persisted preferences included — entirely unchanged. -/
theorem sound_lookup_total_fallback :
    (∀ m : SoundMgr, get_current_sound_path m ∈ soundIds.map soundPath) ∧
    (∀ m : SoundMgr, m.current_sound ∉ soundIds →
      get_current_sound_path m = soundPath "urgent") ∧
    (∀ (m : SoundMgr) (p : Prefs), p.current_sound ∉ soundIds →
      get_current_sound_path (load_preferences m (some p)) = soundPath "urgent") ∧
    (∀ (m : SoundMgr) (t : String), t ∉ soundIds → set_sound m t = m) := by
  have hurgent : lookupGF "urgent" = some (soundPath "urgent") := by decide
  refine ⟨?_, ?_, ?_, ?_⟩
  · intro m
    unfold get_current_sound_path
    cases hc : lookupGF m.current_sound with
    | some p => exact lookupGF_mem_paths _ _ hc
    | none =>
      rw [hurgent]
      exact List.mem_map.mpr ⟨"urgent", by decide, rfl⟩
  · intro m hm
    unfold get_current_sound_path
    rw [lookupGF_eq_none_of_not_mem _ hm, hurgent]
    rfl
  · intro m p hp
    unfold get_current_sound_path load_preferences
    rw [lookupGF_eq_none_of_not_mem _ hp, hurgent]
    rfl
  · intro m t ht
    unfold set_sound
    rw [lookupGF_eq_none_of_not_mem _ ht]
    rfl

/-- Claim C10, witness: the unknown id "klaxon" (say, loaded from a stale
preferences file) falls back to the urgent sound's path, and selecting it via
`set_sound` changes nothing. -/
theorem sound_lookup_total_fallback_witness :
    ("klaxon" ∉ soundIds ∧
      get_current_sound_path ⟨"klaxon", 1 / 2, none⟩ = soundPath "urgent") ∧
    (get_current_sound_path
        (load_preferences ⟨"urgent", 1 / 2, none⟩ (some ⟨"klaxon", 1 / 2⟩)) =
      soundPath "urgent") ∧
    (set_sound ⟨"urgent", 1 / 2, none⟩ "klaxon" = ⟨"urgent", 1 / 2, none⟩) :=
  ⟨⟨by decide, sound_lookup_total_fallback.2.1 ⟨"klaxon", 1 / 2, none⟩ (by decide)⟩,
   sound_lookup_total_fallback.2.2.1 ⟨"urgent", 1 / 2, none⟩ ⟨"klaxon", 1 / 2⟩ (by decide),
   sound_lookup_total_fallback.2.2.2 ⟨"urgent", 1 / 2, none⟩ "klaxon" (by decide)⟩

/-! ## Smile confirmation timer (src/main.py `smile_monitor_loop`, lines 441-459)

The loop keeps `start_smile`; on a smiling sample it records the current time
if unset, otherwise confirms (stops the alarm and breaks) when
`time.time() - start_smile > 2.0`; on a non-smiling sample it clears
`start_smile`.  Samples are (timestamp, boolean) pairs with timestamps in
milliseconds, so the dwell constant `2.0` seconds becomes `2000`. -/

structure SmileSample where
  now : Nat
  smiling : Bool
deriving DecidableEq, Repr

/-- One iteration of the smile check: the new `start_smile` and whether this
iteration confirmed (`time.time() - start_smile > 2.0`, a strict comparison). -/
def smileStep (streak : Option Nat) (x : SmileSample) : Option Nat × Bool :=
  if x.smiling then
    match streak with
    | none => (some x.now, false)
    | some s0 => (some s0, decide (2000 < x.now - s0))
  else (none, false)

/-- The monitor loop over a sample stream: returns the final `start_smile`
and whether confirmation fired (the loop breaks at the first confirmation). -/
def runSmile (streak : Option Nat) : List SmileSample → Option Nat × Bool
  | [] => (streak, false)
  | x :: xs =>
    let r := smileStep streak x
    if r.2 then (r.1, true) else runSmile r.1 xs

/-- The `start_smile` value after processing a stream (the confirmation flag
does not influence the streak state). -/
def streakFrom (streak : Option Nat) (l : List SmileSample) : Option Nat :=
  l.foldl (fun st x => (smileStep st x).1) streak

/-- The streak start as the specification words it: the timestamp of the
first positive sample after the last negative sample (the trailing all-true
block), `none` when the stream ends with a negative sample or is empty. -/
def streakSpec (l : List SmileSample) : Option Nat :=
  ((l.reverse.takeWhile fun x => x.smiling).getLast?).map fun x => x.now

theorem streakFrom_append_single (st : Option Nat) (l : List SmileSample)
    (x : SmileSample) :
    streakFrom st (l ++ [x]) = (smileStep (streakFrom st l) x).1 := by
  simp [streakFrom, List.foldl_append]

theorem streakSpec_append_single (l : List SmileSample) (x : SmileSample) :
    streakSpec (l ++ [x]) =
      if x.smiling then some ((streakSpec l).elim x.now fun y => y) else none := by
  unfold streakSpec
  rw [List.reverse_append]
  simp only [List.reverse_singleton, List.singleton_append]
  by_cases hx : x.smiling
  · rw [List.takeWhile_cons_of_pos (by simpa using hx), if_pos hx]
    cases hts : l.reverse.takeWhile (fun s => s.smiling) with
    | nil => simp
    | cons y ys =>
      rw [List.getLast?_cons_cons, List.getLast?_eq_getLast _ (by simp)]
      simp
  · rw [List.takeWhile_cons_of_neg (by simpa using hx), if_neg hx]
    simp

theorem streakFrom_eq_streakSpec (l : List SmileSample) :
    streakFrom none l = streakSpec l := by
  induction l using List.reverseRecOn with
  | nil => simp [streakFrom, streakSpec]
  | append_singleton l x ih =>
    rw [streakFrom_append_single, streakSpec_append_single, ← ih]
    cases hx : x.smiling with
    | false => simp [smileStep, hx]
    | true => cases streakFrom none l with
      | none => simp [smileStep, hx]
      | some v => simp [smileStep, hx]

theorem runSmile_confirm_iff (st : Option Nat) (l : List SmileSample) :
    (runSmile st l).2 = true ↔
      ∃ l1 x l2, l = l1 ++ x :: l2 ∧ x.smiling = true ∧
        ∃ v, streakFrom st l1 = some v ∧ v + 2000 < x.now := by
  induction l generalizing st with
  | nil =>
    simp only [runSmile]
    constructor
    · intro h; cases h
    · rintro ⟨l1, x, l2, heq, -⟩
      exact absurd heq (by simp)
  | cons y ys ih =>
    by_cases hc : (smileStep st y).2 = true
    · have hy : y.smiling = true ∧ ∃ v, st = some v ∧ v + 2000 < y.now := by
        unfold smileStep at hc
        by_cases hys : y.smiling
        · cases hst : st with
          | none => rw [if_pos hys, hst] at hc; cases hc
          | some v =>
            rw [if_pos hys, hst] at hc
            simp only [decide_eq_true_eq] at hc
            exact ⟨hys, v, rfl, by omega⟩
        · rw [if_neg hys] at hc; cases hc
      constructor
      · intro _
        exact ⟨[], y, ys, rfl, hy.1, by simpa [streakFrom] using hy.2⟩
      · intro _
        simp [runSmile, hc]
    · have hrun : runSmile st (y :: ys) = runSmile (smileStep st y).1 ys := by
        simp [runSmile, hc]
      rw [hrun, ih]
      constructor
      · rintro ⟨l1, x, l2, heq, hx, v, hst, hv⟩
        exact ⟨y :: l1, x, l2, by rw [List.cons_append, heq], hx, v,
          by simpa [streakFrom] using hst, hv⟩
      · rintro ⟨l1, x, l2, heq, hx, v, hst, hv⟩
        cases l1 with
        | nil =>
          simp only [List.nil_append] at heq
          obtain ⟨rfl, rfl⟩ : y = x ∧ ys = l2 := by
            constructor
            · exact (List.cons.injEq _ _ _ _ ▸ heq).1
            · exact (List.cons.injEq _ _ _ _ ▸ heq).2
          exfalso
          apply hc
          unfold smileStep
          rw [if_pos hx]
          have : st = some v := by simpa [streakFrom] using hst
          rw [this]
          simp only [decide_eq_true_eq]
          omega
        | cons z l1t =>
          rw [List.cons_append] at heq
          have h1 : y = z := (List.cons.injEq _ _ _ _ ▸ heq).1
          have h2 : ys = l1t ++ x :: l2 := (List.cons.injEq _ _ _ _ ▸ heq).2
          subst h1
          refine ⟨l1t, x, l2, h2, hx, v, ?_, hv⟩
          simpa [streakFrom] using hst

/-! ### Claim C1: smile confirmation -/

/-- A stream of `k` positive smile samples at the 0.1-second cadence:
timestamps 0, 100, ..., 100 * (k - 1) milliseconds. -/
def steadySmile (k : Nat) : List SmileSample := (List.range k).map fun n => ⟨100 * n, true⟩

/-- Claim C1, counterexample: over 21 consecutive positive samples at 0.1 s
cadence the elapsed time since the streak start is exactly 2000 ms — the
2.0-second dwell is reached — yet the loop does not confirm, because the
source compares with a strict `>`; confirmation only fires one sample later
at 2100 ms.  This refutes "reports confirmed exactly when the elapsed time
... reaches the 2.0-second dwell". -/
theorem smile_dwell_boundary_counterexample :
    (runSmile none (steadySmile 21)).2 = false ∧
    streakFrom none (steadySmile 21) = some 0 ∧
    ((steadySmile 21).getLast?.map fun x => x.now) = some 2000 ∧
    (runSmile none (steadySmile 22)).2 = true := by decide

/-- Claim C1 (amended): the streak start is the timestamp of the first
positive sample after the last negative sample (set on the first positive
signal after a reset, unchanged on later positive signals, cleared by a
single negative signal anywhere); the loop reports confirmed exactly when
some positive sample arrives whose elapsed time since the streak start
strictly exceeds the 2.0-second dwell — never at or before an elapsed time
of exactly 2.0 seconds. -/
theorem smile_confirm_amended (l : List SmileSample) :
    ((runSmile none l).2 = true ↔
      ∃ l1 x l2, l = l1 ++ x :: l2 ∧ x.smiling = true ∧
        ∃ v, streakSpec l1 = some v ∧ v + 2000 < x.now) ∧
    streakFrom none l = streakSpec l := by
  constructor
  · rw [runSmile_confirm_iff]
    constructor
    · rintro ⟨l1, x, l2, heq, hx, v, hst, hv⟩
      exact ⟨l1, x, l2, heq, hx, v, streakFrom_eq_streakSpec l1 ▸ hst, hv⟩
    · rintro ⟨l1, x, l2, heq, hx, v, hst, hv⟩
      exact ⟨l1, x, l2, heq, hx, v, (streakFrom_eq_streakSpec l1).symm ▸ hst, hv⟩
  · exact streakFrom_eq_streakSpec l

/-! ## Session controller and scheduler (src/main.py)

Absolute instants are Nat seconds (Python datetime comparison on concrete
instants is order-isomorphic to seconds since an epoch;
`timedelta(minutes=1)` is `+ 60`).  The relevant mutable fields of
`SmartAlarmApp` become an explicit record; the alarm-monitor thread and
externally arriving stop requests (a smile confirmation or a manual stop) are
interleaved as events, with the loop's own `time.sleep(1)` /
`time.sleep(60)` calls determining when the next scan samples the clock and
stop requests serialized at loop boundaries. -/

structure Alarm where
  id : String
  time : Nat
  active : Bool
deriving DecidableEq, Repr

/-- The shared state of `SmartAlarmApp`: the alarm list, `active_alarm_id`,
`is_alarm_ringing`, `stopping_alarm_lock`, the audio/camera collaborators and
the printed log lines. -/
structure AppState where
  alarms : List Alarm
  activeAlarmId : Option String
  ringing : Bool
  lock : Bool
  audioPlaying : Bool
  cameraOn : Bool
  logs : List String
deriving DecidableEq, Repr

/-- `trigger_alarm` (src/main.py lines 373-391): marks the session ringing,
records the alarm id, starts audio playback and the camera. -/
def trigger_alarm (s : AppState) (alarmId : String) : AppState :=
  { s with ringing := true, activeAlarmId := some alarmId,
           audioPlaying := true, cameraOn := true }

/-- The due test of the monitor loop:
`alarm["active"] and now >= alarm["time"] and now < alarm["time"] + timedelta(minutes=1)`. -/
def due (a : Alarm) (now : Nat) : Bool :=
  a.active && decide (a.time ≤ now) && decide (now < a.time + 60)

/-- `save_alarms` called from `stop_alarm`: its body catches its own I/O
exceptions and prints the error, so a failed save only leaves a log line. -/
def save_alarms_log (ok : Bool) (logs : List String) : List String :=
  if ok then logs else logs ++ ["Error saving alarms"]

/-- The deactivation loop of `stop_alarm`:
`for alarm in self.alarms: if alarm["id"] == self.active_alarm_id: alarm["active"] = False`
(comparing a string id with `None` is `False`, so nothing matches when no id
is recorded). -/
def deactivateMatched (alarms : List Alarm) (target : Option String) : List Alarm :=
  alarms.map fun a => if some a.id == target then { a with active := false } else a

/-- `stop_alarm` (src/main.py lines 461-494), parameterized by the outcome of
the persistence call: bails out if `stopping_alarm_lock` is held, otherwise
takes the lock, clears `is_alarm_ringing`, pauses audio, stops the camera,
deactivates the matched alarm, saves (logging on failure) and finally releases
the lock.  `active_alarm_id` is notably never cleared. -/
def stop_alarm (saveOk : Bool) (s : AppState) : AppState :=
  if s.lock then s
  else
    { s with lock := false, ringing := false, audioPlaying := false, cameraOn := false,
             alarms := deactivateMatched s.alarms s.activeAlarmId,
             logs := save_alarms_log saveOk s.logs }

/-! ### Claim C8: stop completes for every persistence outcome -/

/-- Claim C8: for every outcome of the save operation inside the stop
transition (success or failure), the stop sequence completes: the session
leaves `Ringing` (the flag is cleared before the save is even attempted),
audio and camera are stopped, the latch is released, and a failed save is
logged rather than propagated. -/
theorem stop_completes_despite_save_failure (s : AppState) (saveOk : Bool)
    (h : s.lock = false) :
    (stop_alarm saveOk s).ringing = false ∧
    (stop_alarm saveOk s).audioPlaying = false ∧
    (stop_alarm saveOk s).cameraOn = false ∧
    (stop_alarm saveOk s).lock = false ∧
    (saveOk = false → (stop_alarm saveOk s).logs = s.logs ++ ["Error saving alarms"]) := by
  unfold stop_alarm
  rw [if_neg (by simp [h])]
  refine ⟨rfl, rfl, rfl, rfl, ?_⟩
  intro hok
  simp [save_alarms_log, hok]

/-- Claim C8, witness: a concrete ringing session stopped under a failing
save still reaches the idle configuration, with the failure logged. -/
theorem stop_completes_despite_save_failure_witness :
    (⟨[⟨"a", 100, true⟩], some "a", true, false, true, true, []⟩ : AppState).lock = false ∧
    ((stop_alarm false ⟨[⟨"a", 100, true⟩], some "a", true, false, true, true, []⟩).ringing = false ∧
     (stop_alarm false ⟨[⟨"a", 100, true⟩], some "a", true, false, true, true, []⟩).audioPlaying = false ∧
     (stop_alarm false ⟨[⟨"a", 100, true⟩], some "a", true, false, true, true, []⟩).cameraOn = false ∧
     (stop_alarm false ⟨[⟨"a", 100, true⟩], some "a", true, false, true, true, []⟩).lock = false ∧
     (false = false →
       (stop_alarm false ⟨[⟨"a", 100, true⟩], some "a", true, false, true, true, []⟩).logs =
         ([] : List String) ++ ["Error saving alarms"])) :=
  ⟨by decide, stop_completes_despite_save_failure _ false (by decide)⟩

/-! ### Claim C3: the stop transition is single-flight -/

/-- Whether some alarm with the given id is still active. -/
def anyActiveWithId (s : AppState) (i : String) : Bool :=
  s.alarms.any fun a => a.id == i && a.active

/-- The trajectory of states produced by a sequence of stop requests (each
request's save outcome given by the corresponding Bool). -/
def stopTrajectory (s : AppState) : List Bool → List AppState
  | [] => [s]
  | ok :: oks => s :: stopTrajectory (stop_alarm ok s) oks

/-- The number of `true → false` transitions along a Boolean trajectory. -/
def countTrueFalse : List Bool → Nat
  | [] => 0
  | [_] => 0
  | a :: b :: rest => (if a && !b then 1 else 0) + countTrueFalse (b :: rest)

theorem stop_alarm_of_lock_held (s : AppState) (ok : Bool) (h : s.lock = true) :
    stop_alarm ok s = s := by
  simp [stop_alarm, h]

theorem stop_alarm_activeAlarmId (s : AppState) (ok : Bool) :
    (stop_alarm ok s).activeAlarmId = s.activeAlarmId := by
  unfold stop_alarm
  by_cases h : s.lock <;> simp [h]

theorem stop_alarm_lock (s : AppState) (ok : Bool) :
    (stop_alarm ok s).lock = s.lock := by
  unfold stop_alarm
  by_cases h : s.lock <;> simp [h]

theorem stop_alarm_deactivates (s : AppState) (ok : Bool) (aid : String)
    (hl : s.lock = false) (hid : s.activeAlarmId = some aid) :
    anyActiveWithId (stop_alarm ok s) aid = false := by
  unfold stop_alarm
  rw [if_neg (by simp [hl])]
  unfold anyActiveWithId deactivateMatched
  rw [List.any_eq_false]
  intro x hx
  rw [List.mem_map] at hx
  obtain ⟨b, hb, rfl⟩ := hx
  by_cases hbid : some b.id == s.activeAlarmId
  · simp [hbid]
  · rw [hid] at hbid
    have hfalse : (b.id == aid) = false := by
      rcases hbeq : b.id == aid with _ | _
      · rfl
      · exact absurd (by rw [eq_of_beq hbeq]; exact beq_self_eq_true _) hbid
    simp [hid, hbid, hfalse]

theorem stop_alarm_keeps_inactive (s : AppState) (ok : Bool) (aid : String)
    (h : anyActiveWithId s aid = false) :
    anyActiveWithId (stop_alarm ok s) aid = false := by
  unfold stop_alarm
  by_cases hl : s.lock
  · simpa [hl]
  · rw [if_neg (by simp [hl])]
    unfold anyActiveWithId deactivateMatched
    rw [List.any_eq_false]
    intro x hx
    rw [List.mem_map] at hx
    obtain ⟨b, hb, rfl⟩ := hx
    unfold anyActiveWithId at h
    rw [List.any_eq_false] at h
    have hbfalse := h b hb
    by_cases hbid : some b.id == s.activeAlarmId
    · simp [hbid]
    · simpa [hbid] using hbfalse

theorem stopTrajectory_all_inactive (aid : String) :
    ∀ (oks : List Bool) (s : AppState), anyActiveWithId s aid = false →
      ∀ x ∈ stopTrajectory s oks, anyActiveWithId x aid = false
  | [], s, h, x, hx => by
    simp only [stopTrajectory, List.mem_singleton] at hx
    exact hx ▸ h
  | ok :: oks, s, h, x, hx => by
    simp only [stopTrajectory, List.mem_cons] at hx
    cases hx with
    | inl he => exact he ▸ h
    | inr hm =>
      exact stopTrajectory_all_inactive aid oks _ (stop_alarm_keeps_inactive s ok aid h) x hm

theorem countTrueFalse_of_all_false :
    ∀ l : List Bool, (∀ b ∈ l, b = false) → countTrueFalse l = 0
  | [], _ => rfl
  | [_], _ => rfl
  | a :: b :: rest, h => by
    have ha : a = false := h a (by simp)
    have hrest : ∀ x ∈ b :: rest, x = false := fun x hx => h x (List.mem_cons_of_mem _ hx)
    rw [countTrueFalse, ha]
    simpa using countTrueFalse_of_all_false (b :: rest) hrest

/-- Claim C3: the stop transition is single-flight.  A stop request arriving
while `stopping_alarm_lock` is held is a no-op (no additional effect), and
for every sequence of stop requests following a trigger of an active alarm —
whatever each request's save outcome — the matched alarm's `active` flag
transitions from `true` to `false` exactly once along the whole trajectory. -/
theorem stop_single_flight :
    (∀ (s : AppState) (ok : Bool), s.lock = true → stop_alarm ok s = s) ∧
    (∀ (s0 : AppState) (aid : String) (oks : List Bool),
      s0.lock = false → anyActiveWithId s0 aid = true → oks ≠ [] →
      countTrueFalse
        ((stopTrajectory (trigger_alarm s0 aid) oks).map
          fun s => anyActiveWithId s aid) = 1) := by
  refine ⟨stop_alarm_of_lock_held, ?_⟩
  intro s0 aid oks hl hact hne
  cases oks with
  | nil => exact absurd rfl hne
  | cons ok rest =>
    have hs1lock : (trigger_alarm s0 aid).lock = false := hl
    have hs1id : (trigger_alarm s0 aid).activeAlarmId = some aid := rfl
    have hs1act : anyActiveWithId (trigger_alarm s0 aid) aid = true := hact
    have hs2 : anyActiveWithId (stop_alarm ok (trigger_alarm s0 aid)) aid = false :=
      stop_alarm_deactivates _ ok aid hs1lock hs1id
    rw [stopTrajectory, List.map_cons]
    have htail : ∀ b ∈ (stopTrajectory (stop_alarm ok (trigger_alarm s0 aid)) rest).map
        (fun s => anyActiveWithId s aid), b = false := by
      intro b hb
      rw [List.mem_map] at hb
      obtain ⟨x, hx, rfl⟩ := hb
      exact stopTrajectory_all_inactive aid rest _ hs2 x hx
    cases hmap : (stopTrajectory (stop_alarm ok (trigger_alarm s0 aid)) rest).map
        (fun s => anyActiveWithId s aid) with
    | nil =>
      exfalso
      cases rest <;> simp [stopTrajectory] at hmap
    | cons c cs =>
      have hcs : ∀ b ∈ c :: cs, b = false := by
        intro b hb
        apply htail
        rw [hmap]
        exact hb
      have hc : c = false := hcs c (List.mem_cons_self _ _)
      rw [hs1act]
      simp only [countTrueFalse]
      rw [countTrueFalse_of_all_false (c :: cs) hcs, hc]
      simp

/-- Claim C3, witness: one trigger of the single active alarm followed by two
stop requests (a confirmation and a duplicate); the flag drops exactly once. -/
theorem stop_single_flight_witness :
    ((⟨[⟨"a", 100, true⟩], none, false, false, false, false, []⟩ : AppState).lock = false ∧
      anyActiveWithId ⟨[⟨"a", 100, true⟩], none, false, false, false, false, []⟩ "a" = true ∧
      ([true, false] : List Bool) ≠ []) ∧
    countTrueFalse
      ((stopTrajectory
        (trigger_alarm ⟨[⟨"a", 100, true⟩], none, false, false, false, false, []⟩ "a")
        [true, false]).map fun s => anyActiveWithId s "a") = 1 :=
  ⟨⟨by decide, by decide, by decide⟩,
   stop_single_flight.2 ⟨[⟨"a", 100, true⟩], none, false, false, false, false, []⟩ "a"
     [true, false] (by decide) (by decide) (by decide)⟩

/-! ### The monitor loop and interleaved runs (src/main.py lines 510-520)

`start_alarm_monitor_thread` runs
`while True: if not is_alarm_ringing: now = datetime.now(); for alarm in alarms: if due: trigger_alarm; sleep(60)
 sleep(1)`.
`now` is captured once per pass, so every alarm of the pass is checked
against the same stale instant, and the per-trigger `sleep(60)` delays the
next pass by 60 seconds per fired trigger. -/

/-- One pass of the inner `for` loop with the stale `now`: the state after
the pass and the fired triggers as (alarm id, `is_alarm_ringing` at the
moment this trigger fired) pairs. -/
def monitorScan (s : AppState) (now : Nat) : List Alarm → AppState × List (String × Bool)
  | [] => (s, [])
  | a :: rest =>
    if due a now then
      let r := monitorScan (trigger_alarm s a.id) now rest
      (r.1, (a.id, s.ringing) :: r.2)
    else monitorScan s now rest

/-- An event of the interleaved system run: one iteration of the monitor
loop, or a stop request (smile confirmation / manual stop, with its save
outcome) arriving from another thread. -/
inductive Ev where
  | scan : Ev
  | stopReq : Bool → Ev
deriving DecidableEq, Repr

/-- A configuration: the shared state and the wall-clock instant at which
the monitor loop will next sample the clock. -/
structure Config where
  s : AppState
  t : Nat
deriving DecidableEq, Repr

/-- One event step.  A monitor iteration skips the scan while
`is_alarm_ringing` (the top-of-loop guard) and always sleeps 1 s; a pass that
fired `k` triggers additionally slept `60 * k` seconds.  Emitted triggers are
(clock instant, alarm id, session-was-ringing-when-fired) triples. -/
def stepEv (c : Config) : Ev → Config × List (Nat × String × Bool)
  | .scan =>
    if c.s.ringing then (⟨c.s, c.t + 1⟩, [])
    else
      let r := monitorScan c.s c.t c.s.alarms
      (⟨r.1, c.t + 60 * r.2.length + 1⟩, r.2.map fun p => (c.t, p.1, p.2))
  | .stopReq ok => (⟨stop_alarm ok c.s, c.t⟩, [])

/-- All triggers emitted along a run. -/
def execRun (c : Config) : List Ev → List (Nat × String × Bool)
  | [] => []
  | e :: evs => (stepEv c e).2 ++ execRun (stepEv c e).1 evs

/-- The configuration at the end of a run. -/
def runConfig (c : Config) : List Ev → Config
  | [] => c
  | e :: evs => runConfig (stepEv c e).1 evs

theorem monitorScan_alarms (now : Nat) :
    ∀ (l : List Alarm) (s : AppState), (monitorScan s now l).1.alarms = s.alarms
  | [], s => rfl
  | a :: rest, s => by
    unfold monitorScan
    by_cases h : due a now
    · simp only [if_pos h]
      exact monitorScan_alarms now rest (trigger_alarm s a.id)
    · simp only [if_neg h]
      exact monitorScan_alarms now rest s

/-! ### Claim C5: `activeAlarmId` is set iff not idle -/

/-- Claim C5, counterexample: from the initial idle state, one scan at the
due instant triggers the alarm and one stop request completes the session;
the session is back to idle (`is_alarm_ringing = false`) yet
`active_alarm_id` still holds the alarm id — `stop_alarm` never clears it,
so "set iff not Idle" fails in the reached state. -/
theorem activeAlarmId_stale_counterexample :
    (runConfig ⟨⟨[⟨"a", 100, true⟩], none, false, false, false, false, []⟩, 100⟩
      [Ev.scan, Ev.stopReq true]).s.ringing = false ∧
    (runConfig ⟨⟨[⟨"a", 100, true⟩], none, false, false, false, false, []⟩, 100⟩
      [Ev.scan, Ev.stopReq true]).s.activeAlarmId = some "a" := by decide

theorem monitorScan_ringing_isSome (now : Nat) :
    ∀ (l : List Alarm) (s : AppState),
      (s.ringing = true → s.activeAlarmId.isSome) →
      (monitorScan s now l).1.ringing = true → (monitorScan s now l).1.activeAlarmId.isSome
  | [], s, h => h
  | a :: rest, s, h => by
    unfold monitorScan
    by_cases hdue : due a now
    · simp only [if_pos hdue]
      exact monitorScan_ringing_isSome now rest (trigger_alarm s a.id) fun _ => rfl
    · simp only [if_neg hdue]
      exact monitorScan_ringing_isSome now rest s h

theorem stepEv_ringing_isSome (c : Config) (e : Ev)
    (h : c.s.ringing = true → c.s.activeAlarmId.isSome) :
    (stepEv c e).1.s.ringing = true → (stepEv c e).1.s.activeAlarmId.isSome := by
  cases e with
  | scan =>
    unfold stepEv
    by_cases hr : c.s.ringing
    · simpa [hr] using h
    · simp only [if_neg hr]
      exact monitorScan_ringing_isSome c.t c.s.alarms c.s h
  | stopReq ok =>
    unfold stepEv stop_alarm
    by_cases hl : c.s.lock
    · simpa [hl] using h
    · simp [hl]

/-- Claim C5 (amended): `active_alarm_id` is set on the Idle-to-Ringing
transition (`trigger_alarm` records the id and raises the ringing flag) and
is never cleared afterwards — `stop_alarm` leaves it untouched.  Hence in
every reachable state, if the session is ringing the id is set; the converse
fails once the first session has completed (see the counterexample). -/
theorem activeAlarmId_invariant_amended (c0 : Config) (evs : List Ev)
    (h : c0.s.ringing = true → c0.s.activeAlarmId.isSome) :
    ((runConfig c0 evs).s.ringing = true → (runConfig c0 evs).s.activeAlarmId.isSome) ∧
    (∀ (s : AppState) (i : String),
      (trigger_alarm s i).activeAlarmId = some i ∧ (trigger_alarm s i).ringing = true) ∧
    (∀ (s : AppState) (ok : Bool), (stop_alarm ok s).activeAlarmId = s.activeAlarmId) := by
  refine ⟨?_, fun s i => ⟨rfl, rfl⟩, stop_alarm_activeAlarmId⟩
  induction evs generalizing c0 with
  | nil => exact h
  | cons e evs ih => exact ih (stepEv c0 e).1 (stepEv_ringing_isSome c0 e h)

/-- Claim C5, witness: the amended invariant along a concrete run from the
initial idle state. -/
theorem activeAlarmId_invariant_amended_witness :
    ((⟨⟨[⟨"a", 100, true⟩], none, false, false, false, false, []⟩, 100⟩ : Config).s.ringing = true →
      (⟨⟨[⟨"a", 100, true⟩], none, false, false, false, false, []⟩, 100⟩ : Config).s.activeAlarmId.isSome) ∧
    (((runConfig ⟨⟨[⟨"a", 100, true⟩], none, false, false, false, false, []⟩, 100⟩
        [Ev.scan, Ev.stopReq true, Ev.scan]).s.ringing = true →
      (runConfig ⟨⟨[⟨"a", 100, true⟩], none, false, false, false, false, []⟩, 100⟩
        [Ev.scan, Ev.stopReq true, Ev.scan]).s.activeAlarmId.isSome) ∧
     (∀ (s : AppState) (i : String),
       (trigger_alarm s i).activeAlarmId = some i ∧ (trigger_alarm s i).ringing = true) ∧
     (∀ (s : AppState) (ok : Bool), (stop_alarm ok s).activeAlarmId = s.activeAlarmId)) :=
  ⟨by decide,
   activeAlarmId_invariant_amended ⟨⟨[⟨"a", 100, true⟩], none, false, false, false, false, []⟩, 100⟩
     [Ev.scan, Ev.stopReq true, Ev.scan] (by decide)⟩

/-! ### Claim C4: a trigger while not idle is dropped -/

/-- Claim C4, counterexample: two active alarms share the due window starting
at t = 100.  A single scan pass at t = 100 (session idle) fires the first
alarm — the session enters Ringing — and then, because the inner `for` loop
never re-checks `is_alarm_ringing`, fires the second alarm too: its trigger's
recorded prestate shows the session was already ringing (`true` in the third
component), and the second trigger overwrites the active session's id.  So a
trigger arriving while the session is not idle is not dropped, and two
ringing sessions overlap. -/
theorem trigger_while_ringing_counterexample :
    execRun ⟨⟨[⟨"a", 100, true⟩, ⟨"b", 100, true⟩], none, false, false, false, false, []⟩, 100⟩
      [Ev.scan] = [(100, "a", false), (100, "b", true)] ∧
    (runConfig ⟨⟨[⟨"a", 100, true⟩, ⟨"b", 100, true⟩], none, false, false, false, false, []⟩, 100⟩
      [Ev.scan]).s.activeAlarmId = some "b" := by decide

/-- Two alarms whose one-minute due windows do not overlap. -/
def winDisj (a b : Alarm) : Prop := a.time + 60 ≤ b.time ∨ b.time + 60 ≤ a.time

instance (a b : Alarm) : Decidable (winDisj a b) := by
  unfold winDisj
  infer_instance

theorem due_false_of_disj (a b : Alarm) (now : Nat) (hd : winDisj a b)
    (ha : due a now = true) : due b now = false := by
  by_contra hb
  rw [Bool.not_eq_false] at hb
  simp only [due, Bool.and_eq_true, decide_eq_true_eq] at ha hb
  obtain ⟨⟨-, ha1⟩, ha2⟩ := ha
  obtain ⟨⟨-, hb1⟩, hb2⟩ := hb
  cases hd with
  | inl h => omega
  | inr h => omega

theorem monitorScan_no_due (s : AppState) (now : Nat) :
    ∀ l : List Alarm, (∀ a ∈ l, due a now = false) → monitorScan s now l = (s, [])
  | [], _ => rfl
  | a :: rest, h => by
    unfold monitorScan
    rw [if_neg (by simp [h a (List.mem_cons_self _ _)])]
    exact monitorScan_no_due s now rest fun b hb => h b (List.mem_cons_of_mem _ hb)

theorem monitorScan_prestates_false (now : Nat) :
    ∀ (l : List Alarm) (s : AppState), s.ringing = false → l.Pairwise winDisj →
      ∀ p ∈ (monitorScan s now l).2, p.2 = false
  | [], s, _, _, p, hp => by simp [monitorScan] at hp
  | a :: rest, s, hr, hpw, p, hp => by
    rw [List.pairwise_cons] at hpw
    obtain ⟨hhead, htail⟩ := hpw
    unfold monitorScan at hp
    by_cases hdue : due a now
    · rw [if_pos hdue] at hp
      have hnone : monitorScan (trigger_alarm s a.id) now rest = (trigger_alarm s a.id, []) :=
        monitorScan_no_due _ now rest fun b hb => due_false_of_disj a b now (hhead b hb) hdue
      rw [hnone] at hp
      simp only [List.mem_singleton] at hp
      rw [hp]
      exact hr
    · rw [if_neg hdue] at hp
      exact monitorScan_prestates_false now rest s hr htail p hp

theorem deactivateMatched_pairwise (alarms : List Alarm) (target : Option String)
    (h : alarms.Pairwise winDisj) : (deactivateMatched alarms target).Pairwise winDisj := by
  unfold deactivateMatched
  rw [List.pairwise_map]
  have htime : ∀ a : Alarm,
      (if some a.id == target then { a with active := false } else a).time = a.time := by
    intro a
    by_cases hc : some a.id == target <;> simp [hc]
  apply h.imp
  intro a b hab
  unfold winDisj at hab ⊢
  rw [htime a, htime b]
  exact hab

theorem stepEv_pairwise (c : Config) (e : Ev) (h : c.s.alarms.Pairwise winDisj) :
    (stepEv c e).1.s.alarms.Pairwise winDisj := by
  cases e with
  | scan =>
    unfold stepEv
    by_cases hr : c.s.ringing
    · simpa [hr]
    · simp only [if_neg hr]
      rw [monitorScan_alarms]
      exact h
  | stopReq ok =>
    unfold stepEv stop_alarm
    by_cases hl : c.s.lock
    · simpa [hl]
    · simp only [if_neg (by simp [hl] : ¬c.s.lock = true)]
      exact deactivateMatched_pairwise c.s.alarms c.s.activeAlarmId h

/-- Claim C4 (amended): the trigger guard exists only at the granularity of a
whole scan pass: a monitor iteration beginning while the session is ringing
performs no trigger at all, and when no two alarms share a due window every
trigger of every run fires with the session idle (its recorded prestate is
`false`), so at most one ringing session is in flight at a time.  Within a
single pass, however, alarms due at the same instant all fire (see the
counterexample), so the guarantee needs the pairwise-disjoint-window
hypothesis. -/
theorem trigger_guard_amended (c0 : Config) (evs : List Ev)
    (hd : c0.s.alarms.Pairwise winDisj) :
    (∀ tr ∈ execRun c0 evs, tr.2.2 = false) ∧
    (∀ c : Config, c.s.ringing = true → (stepEv c Ev.scan).2 = []) := by
  refine ⟨?_, fun c hr => by simp [stepEv, hr]⟩
  induction evs generalizing c0 with
  | nil => intro tr htr; simp [execRun] at htr
  | cons e evs ih =>
    intro tr htr
    unfold execRun at htr
    rw [List.mem_append] at htr
    cases htr with
    | inl hhead =>
      cases e with
      | scan =>
        unfold stepEv at hhead
        by_cases hr : c0.s.ringing
        · simp [hr] at hhead
        · simp only [if_neg hr] at hhead
          rw [List.mem_map] at hhead
          obtain ⟨p, hp, rfl⟩ := hhead
          exact monitorScan_prestates_false c0.t c0.s.alarms c0.s (by simpa using hr) hd p hp
      | stopReq ok => simp [stepEv] at hhead
    | inr htail => exact ih (stepEv c0 e).1 (stepEv_pairwise c0 e hd) tr htail

/-- Claim C4, witness: the amended theorem on a concrete single-alarm run
(trigger, stop, second scan); every emitted trigger fired from the idle
state. -/
theorem trigger_guard_amended_witness :
    ([(⟨"a", 100, true⟩ : Alarm)].Pairwise winDisj ∧
      (∀ tr ∈ execRun ⟨⟨[⟨"a", 100, true⟩], none, false, false, false, false, []⟩, 100⟩
        [Ev.scan, Ev.stopReq true, Ev.scan], tr.2.2 = false)) ∧
    (∀ c : Config, c.s.ringing = true → (stepEv c Ev.scan).2 = []) :=
  ⟨⟨by decide,
    (trigger_guard_amended ⟨⟨[⟨"a", 100, true⟩], none, false, false, false, false, []⟩, 100⟩
      [Ev.scan, Ev.stopReq true, Ev.scan] (by decide)).1⟩,
   (trigger_guard_amended ⟨⟨[⟨"a", 100, true⟩], none, false, false, false, false, []⟩, 100⟩
      [Ev.scan, Ev.stopReq true, Ev.scan] (by decide)).2⟩

/-! ### Claim C2: due window and exactly-once triggering -/

/-- The identity of an alarm occurrence: its id together with its stored
instant (neither is changed by triggers or stops). -/
def alarmKey (a : Alarm) : String × Nat := (a.id, a.time)

theorem monitorScan_ids (now : Nat) :
    ∀ (l : List Alarm) (s : AppState),
      (monitorScan s now l).2.map Prod.fst = (l.filter fun a => due a now).map fun a => a.id
  | [], _ => rfl
  | a :: rest, s => by
    unfold monitorScan
    by_cases h : due a now
    · rw [if_pos h, List.filter_cons_of_pos (by simpa using h)]
      simp only [List.map_cons]
      rw [monitorScan_ids now rest (trigger_alarm s a.id)]
    · rw [if_neg h, List.filter_cons_of_neg (by simpa using h)]
      exact monitorScan_ids now rest s

theorem monitorScan_mem_due (now : Nat) :
    ∀ (l : List Alarm) (s : AppState) (p : String × Bool),
      p ∈ (monitorScan s now l).2 → ∃ a ∈ l, a.id = p.1 ∧ due a now = true
  | [], s, p, h => by simp [monitorScan] at h
  | a :: rest, s, p, h => by
    unfold monitorScan at h
    by_cases hdue : due a now
    · rw [if_pos hdue] at h
      rw [List.mem_cons] at h
      cases h with
      | inl he =>
        exact ⟨a, List.mem_cons_self _ _, (congrArg Prod.fst he).symm, hdue⟩
      | inr hm =>
        obtain ⟨b, hb, hbi, hbd⟩ := monitorScan_mem_due now rest (trigger_alarm s a.id) p hm
        exact ⟨b, List.mem_cons_of_mem _ hb, hbi, hbd⟩
    · rw [if_neg hdue] at h
      obtain ⟨b, hb, hbi, hbd⟩ := monitorScan_mem_due now rest s p h
      exact ⟨b, List.mem_cons_of_mem _ hb, hbi, hbd⟩

theorem monitorScan_due_mem (now : Nat) :
    ∀ (l : List Alarm) (s : AppState) (a : Alarm), a ∈ l → due a now = true →
      ∃ pre, (a.id, pre) ∈ (monitorScan s now l).2
  | [], _, a, ha, _ => absurd ha (List.not_mem_nil a)
  | b :: rest, s, a, ha, hdue => by
    rw [List.mem_cons] at ha
    unfold monitorScan
    by_cases hb : due b now
    · rw [if_pos hb]
      cases ha with
      | inl he =>
        exact ⟨s.ringing, by rw [he]; exact List.mem_cons_self _ _⟩
      | inr hm =>
        obtain ⟨pre, hpre⟩ := monitorScan_due_mem now rest (trigger_alarm s b.id) a hm hdue
        exact ⟨pre, List.mem_cons_of_mem _ hpre⟩
    · rw [if_neg hb]
      cases ha with
      | inl he => exact absurd (he ▸ hdue) (by simpa using hb)
      | inr hm => exact monitorScan_due_mem now rest s a hm hdue

theorem deactivateMatched_keys (alarms : List Alarm) (target : Option String) :
    (deactivateMatched alarms target).map alarmKey = alarms.map alarmKey := by
  unfold deactivateMatched
  rw [List.map_map]
  apply List.map_congr_left
  intro a _
  simp only [beq_iff_eq]
  by_cases hc : some a.id = target <;> simp [alarmKey, hc]

theorem stepEv_keys (c : Config) (e : Ev) :
    (stepEv c e).1.s.alarms.map alarmKey = c.s.alarms.map alarmKey := by
  cases e with
  | scan =>
    unfold stepEv
    by_cases hr : c.s.ringing
    · simp [hr]
    · simp only [if_neg hr]
      rw [monitorScan_alarms]
  | stopReq ok =>
    unfold stepEv stop_alarm
    by_cases hl : c.s.lock
    · simp [hl]
    · simp only [if_neg (by simp [hl] : ¬c.s.lock = true)]
      exact deactivateMatched_keys c.s.alarms c.s.activeAlarmId

theorem map_id_eq_keys_fst (alarms : List Alarm) :
    (alarms.map fun a => a.id) = (alarms.map alarmKey).map Prod.fst := by
  rw [List.map_map]
  rfl

theorem stepEv_t_le (c : Config) (e : Ev) : c.t ≤ (stepEv c e).1.t := by
  cases e with
  | scan =>
    unfold stepEv
    by_cases hr : c.s.ringing
    · simp [hr]
    · simp only [if_neg hr]
      omega
  | stopReq ok => exact le_refl _

theorem execRun_time_lb :
    ∀ (evs : List Ev) (c : Config) (tr : Nat × String × Bool),
      tr ∈ execRun c evs → c.t ≤ tr.1
  | [], c, tr, h => by simp [execRun] at h
  | e :: evs, c, tr, h => by
    unfold execRun at h
    rw [List.mem_append] at h
    cases h with
    | inl hh =>
      cases e with
      | scan =>
        unfold stepEv at hh
        by_cases hr : c.s.ringing
        · simp [hr] at hh
        · simp only [if_neg hr] at hh
          rw [List.mem_map] at hh
          obtain ⟨p, hp, rfl⟩ := hh
          exact le_refl _
      | stopReq ok => simp [stepEv] at hh
    | inr ht => exact le_trans (stepEv_t_le c e) (execRun_time_lb evs _ tr ht)

theorem time_of_id_unique (alarms : List Alarm) (i : String) (T : Nat)
    (hmem : (i, T) ∈ alarms.map alarmKey)
    (hnd : (alarms.map fun a => a.id).Nodup)
    (b : Alarm) (hb : b ∈ alarms) (hbi : b.id = i) : b.time = T := by
  rw [List.mem_map] at hmem
  obtain ⟨a, ha, hka⟩ := hmem
  have hai : a.id = i := congrArg Prod.fst hka
  have hat : a.time = T := congrArg Prod.snd hka
  have hba : b = a := List.inj_on_of_nodup_map hnd hb ha (by rw [hbi, hai])
  rw [hba, hat]

theorem execRun_window (i : String) (T : Nat) :
    ∀ (evs : List Ev) (c : Config),
      (i, T) ∈ c.s.alarms.map alarmKey →
      (c.s.alarms.map fun a => a.id).Nodup →
      ∀ tr ∈ execRun c evs, tr.2.1 = i → T ≤ tr.1 ∧ tr.1 < T + 60
  | [], c, _, _, tr, htr => by simp [execRun] at htr
  | e :: evs, c, hmem, hnd, tr, htr => by
    intro hi
    unfold execRun at htr
    rw [List.mem_append] at htr
    cases htr with
    | inl hh =>
      cases e with
      | scan =>
        unfold stepEv at hh
        by_cases hr : c.s.ringing
        · simp [hr] at hh
        · simp only [if_neg hr] at hh
          rw [List.mem_map] at hh
          obtain ⟨p, hp, rfl⟩ := hh
          obtain ⟨b, hb, hbi, hbdue⟩ := monitorScan_mem_due c.t c.s.alarms c.s p hp
          have hbT : b.time = T :=
            time_of_id_unique c.s.alarms i T hmem hnd b hb (hbi.trans hi)
          simp only [due, Bool.and_eq_true, decide_eq_true_eq] at hbdue
          exact ⟨hbT ▸ hbdue.1.2, hbT ▸ hbdue.2⟩
      | stopReq ok => simp [stepEv] at hh
    | inr ht =>
      refine execRun_window i T evs (stepEv c e).1 ?_ ?_ tr ht hi
      · rw [stepEv_keys]
        exact hmem
      · rw [map_id_eq_keys_fst, stepEv_keys, ← map_id_eq_keys_fst]
        exact hnd

theorem execRun_once (i : String) (T : Nat) :
    ∀ (evs : List Ev) (c : Config),
      (i, T) ∈ c.s.alarms.map alarmKey →
      (c.s.alarms.map fun a => a.id).Nodup →
      ((execRun c evs).map fun tr => tr.2.1).count i ≤ 1
  | [], _, _, _ => by simp [execRun]
  | e :: evs, c, hmem, hnd => by
    have hmem2 : (i, T) ∈ (stepEv c e).1.s.alarms.map alarmKey := by
      rw [stepEv_keys]
      exact hmem
    have hnd2 : ((stepEv c e).1.s.alarms.map fun a => a.id).Nodup := by
      rw [map_id_eq_keys_fst, stepEv_keys, ← map_id_eq_keys_fst]
      exact hnd
    have ihtail := execRun_once i T evs (stepEv c e).1 hmem2 hnd2
    unfold execRun
    rw [List.map_append, List.count_append]
    cases e with
    | stopReq ok => simpa [stepEv] using ihtail
    | scan =>
      by_cases hr : c.s.ringing
      · simpa [stepEv, hr] using ihtail
      · have hheadmap : ((stepEv c Ev.scan).2.map fun tr => tr.2.1) =
            ((c.s.alarms.filter fun a => due a c.t).map fun a => a.id) := by
          simp only [stepEv, if_neg hr]
          rw [List.map_map]
          have hcomp : ((fun tr : Nat × String × Bool => tr.2.1) ∘
              fun p : String × Bool => (c.t, p.1, p.2)) = Prod.fst := rfl
          rw [hcomp, monitorScan_ids]
        rw [hheadmap]
        by_cases hcnt : ((c.s.alarms.filter fun a => due a c.t).map fun a => a.id).count i = 0
        · rw [hcnt]
          simpa using ihtail
        · have hfired : i ∈ (c.s.alarms.filter fun a => due a c.t).map fun a => a.id := by
            by_contra hcon
            exact hcnt (List.count_eq_zero.mpr hcon)
          have hsub : ((c.s.alarms.filter fun a => due a c.t).map fun a => a.id).Sublist
              (c.s.alarms.map fun a => a.id) := (List.filter_sublist _).map _
          have hhead_le : ((c.s.alarms.filter fun a => due a c.t).map fun a => a.id).count i ≤ 1 :=
            List.nodup_iff_count_le_one.mp (hnd.sublist hsub) i
          obtain ⟨b, hbfil, hbi⟩ := List.mem_map.mp hfired
          rw [List.mem_filter] at hbfil
          have hbT : b.time = T := time_of_id_unique c.s.alarms i T hmem hnd b hbfil.1 hbi
          have hbdue := hbfil.2
          simp only [due, Bool.and_eq_true, decide_eq_true_eq] at hbdue
          have hT1 : T ≤ c.t := hbT ▸ hbdue.1.2
          have hlen : 1 ≤ (monitorScan c.s c.t c.s.alarms).2.length := by
            have hin : i ∈ (monitorScan c.s c.t c.s.alarms).2.map Prod.fst := by
              rw [monitorScan_ids]
              exact hfired
            obtain ⟨p, hp, -⟩ := List.mem_map.mp hin
            exact List.length_pos.mpr (List.ne_nil_of_mem hp)
          have htail0 : ((execRun (stepEv c Ev.scan).1 evs).map fun tr => tr.2.1).count i = 0 := by
            rw [List.count_eq_zero]
            intro hconmem
            obtain ⟨tr, htr, htri⟩ := List.mem_map.mp hconmem
            have h1 := execRun_time_lb evs (stepEv c Ev.scan).1 tr htr
            have h2 := (execRun_window i T evs (stepEv c Ev.scan).1 hmem2 hnd2 tr htr htri).2
            have ht2 : (stepEv c Ev.scan).1.t =
                c.t + 60 * (monitorScan c.s c.t c.s.alarms).2.length + 1 := by
              simp [stepEv, if_neg hr]
            rw [ht2] at h1
            omega
          rw [htail0]
          omega

/-- Claim C2: for every run of the monitor loop interleaved with stop
requests, and every alarm with a unique id, (i) every trigger carrying that
alarm's id fires at an instant inside the half-open due window
[instant, instant + 60 s), (ii) over the whole run at most one such trigger
is emitted — after a pass fires, the accumulated `time.sleep` calls push the
next pass past the window's end — and (iii) if the loop samples an instant
inside the window while the session is idle and the alarm active, the scan
does emit the trigger at that instant. -/
theorem scheduler_window_exactly_once (c0 : Config) (evs : List Ev) (a : Alarm)
    (ha : a ∈ c0.s.alarms) (hnd : (c0.s.alarms.map fun x => x.id).Nodup) :
    (∀ tr ∈ execRun c0 evs, tr.2.1 = a.id → a.time ≤ tr.1 ∧ tr.1 < a.time + 60) ∧
    ((execRun c0 evs).map fun tr => tr.2.1).count a.id ≤ 1 ∧
    (c0.s.ringing = false → a.active = true → a.time ≤ c0.t → c0.t < a.time + 60 →
      ∀ rest : List Ev, ∃ pre, (c0.t, a.id, pre) ∈ execRun c0 (Ev.scan :: rest)) := by
  have hmem : (a.id, a.time) ∈ c0.s.alarms.map alarmKey := List.mem_map.mpr ⟨a, ha, rfl⟩
  refine ⟨fun tr htr hi => execRun_window a.id a.time evs c0 hmem hnd tr htr hi,
    execRun_once a.id a.time evs c0 hmem hnd, ?_⟩
  intro hr hact h1 h2 rest
  have hdue : due a c0.t = true := by simp [due, hact, h1, h2]
  obtain ⟨pre, hpre⟩ := monitorScan_due_mem c0.t c0.s.alarms c0.s a ha hdue
  refine ⟨pre, ?_⟩
  unfold execRun
  rw [List.mem_append]
  left
  simp only [stepEv, if_neg (by simp [hr] : ¬c0.s.ringing = true)]
  exact List.mem_map.mpr ⟨(a.id, pre), hpre, rfl⟩

/-- Claim C2, witness: the specification's own example, in seconds of day —
an alarm at 07:00 (25200 s), the loop sampling from 06:59:59 (25199 s): no
fire at 06:59:59, one fire at 07:00:00, no second fire afterwards (the next
pass only happens at 07:01:01). -/
theorem scheduler_window_exactly_once_witness :
    ((∀ tr ∈ execRun ⟨⟨[⟨"a", 25200, true⟩], none, false, false, false, false, []⟩, 25199⟩
        [Ev.scan, Ev.scan, Ev.scan], tr.2.1 = (⟨"a", 25200, true⟩ : Alarm).id →
        (⟨"a", 25200, true⟩ : Alarm).time ≤ tr.1 ∧
          tr.1 < (⟨"a", 25200, true⟩ : Alarm).time + 60) ∧
      ((execRun ⟨⟨[⟨"a", 25200, true⟩], none, false, false, false, false, []⟩, 25199⟩
        [Ev.scan, Ev.scan, Ev.scan]).map fun tr => tr.2.1).count
          (⟨"a", 25200, true⟩ : Alarm).id ≤ 1 ∧
      ((⟨⟨[⟨"a", 25200, true⟩], none, false, false, false, false, []⟩, 25199⟩ : Config).s.ringing
          = false →
        (⟨"a", 25200, true⟩ : Alarm).active = true →
        (⟨"a", 25200, true⟩ : Alarm).time ≤
          (⟨⟨[⟨"a", 25200, true⟩], none, false, false, false, false, []⟩, 25199⟩ : Config).t →
        (⟨⟨[⟨"a", 25200, true⟩], none, false, false, false, false, []⟩, 25199⟩ : Config).t <
          (⟨"a", 25200, true⟩ : Alarm).time + 60 →
        ∀ rest : List Ev, ∃ pre,
          ((⟨⟨[⟨"a", 25200, true⟩], none, false, false, false, false, []⟩, 25199⟩ : Config).t,
            (⟨"a", 25200, true⟩ : Alarm).id, pre) ∈
            execRun ⟨⟨[⟨"a", 25200, true⟩], none, false, false, false, false, []⟩, 25199⟩
              (Ev.scan :: rest))) ∧
    execRun ⟨⟨[⟨"a", 25200, true⟩], none, false, false, false, false, []⟩, 25199⟩
      [Ev.scan, Ev.scan, Ev.scan] = [(25200, "a", false)] :=
  ⟨scheduler_window_exactly_once
      ⟨⟨[⟨"a", 25200, true⟩], none, false, false, false, false, []⟩, 25199⟩
      [Ev.scan, Ev.scan, Ev.scan] ⟨"a", 25200, true⟩ (by decide) (by decide),
   by decide⟩
